import Mathlib

/-!
Verification of the DCA (dollar-cost-averaging) calculator against its
specification.  The core under study is `calculate_dca` from
src/calculator.py, together with the derived gain/loss percentage computed
in `main`.  Money, prices and share counts are modelled as exact rationals
(the Python code uses floats; every concrete value appearing in the tests
and the specification is exactly representable, and the accumulation logic
itself is plain field arithmetic).  Dates are an arbitrary type parameter,
mirroring the pandas date index that the code only carries through.
-/

variable {α : Type}

/-- One row of the DataFrame handed to `calculate_dca`: the frame is indexed
by date and has a `Close` column; any further columns (modelled as an
association list `rest`) may be present but are never read by the
calculator. -/
structure PriceRow (α : Type) where
  date : α
  close : ℚ
  rest : List (String × ℚ)
  deriving DecidableEq

/-- One appended record of the DCA log, mirroring the dictionary built in the
loop body of `calculate_dca`: Date, Price, Total Shares, Total Investment,
Portfolio Value. -/
structure LedgerEntry (α : Type) where
  date : α
  price : ℚ
  total_shares : ℚ
  total_investment : ℚ
  portfolio_value : ℚ
  deriving DecidableEq

/-- The loop of `calculate_dca`, with the `enumerate` counter `i` and the two
running accumulators made explicit.  Each iteration reads the row's close
price, adds the initial investment to the contribution when `i = 0`, updates
the accumulators and appends a ledger entry. -/
def dcaLoop (regular_contribution initial_investment : ℚ) :
    List (PriceRow α) → Nat → ℚ → ℚ → List (LedgerEntry α) × ℚ × ℚ
  | [], _, total_shares, total_invested => ([], total_shares, total_invested)
  | row :: rows, i, total_shares, total_invested =>
    let price := row.close
    let contribution :=
      if i = 0 then regular_contribution + initial_investment
      else regular_contribution
    let total_shares' := total_shares + contribution / price
    let total_invested' := total_invested + contribution
    let entry : LedgerEntry α :=
      ⟨row.date, price, total_shares', total_invested',
        total_shares' * price⟩
    let result :=
      dcaLoop regular_contribution initial_investment rows (i + 1)
        total_shares' total_invested'
    (entry :: result.1, result.2)

/-- The function `calculate_dca` from src/calculator.py: one forward pass over
the price rows starting from zero accumulators, returning the DCA log together
with the final total shares and the final total invested. -/
def calculate_dca (filtered_data : List (PriceRow α))
    (regular_contribution initial_investment : ℚ) :
    List (LedgerEntry α) × ℚ × ℚ :=
  dcaLoop regular_contribution initial_investment filtered_data 0 0 0

/-- The derived metric computed by `main` in src/calculator.py: the final
portfolio value is the last Portfolio Value of the log, the net gain or loss
is that value minus the total invested, and the percentage divides by
`total_invested` with no zero guard (rational division by zero evaluates to
zero here; the Python code performs the division unconditionally). -/
def net_gain_loss_pct (dca_log : List (LedgerEntry α))
    (total_invested : ℚ) : ℚ :=
  let final_value :=
    ((dca_log.getLast?).map (fun e => e.portfolio_value)).getD 0
  let net_gain_loss := final_value - total_invested
  net_gain_loss / total_invested * 100

/-- The three-row price series of the reference scenario: closes 10, 20, 40 on
three successive dates. -/
def c1Rows : List (PriceRow Nat) :=
  [⟨0, 10, []⟩, ⟨1, 20, []⟩, ⟨2, 40, []⟩]

/-- C1: for prices [10, 20, 40] with regular contribution 100 and initial
investment 50, `calculate_dca` returns total shares 22.5 and total invested
350, the last ledger entry carries the same totals, and the intermediate
entries read (15, 150) after interval 0 and (20, 250) after interval 1. -/
theorem C1_basic_scenario :
    (calculate_dca c1Rows 100 50).2.1 = 45 / 2 ∧
    (calculate_dca c1Rows 100 50).2.2 = 350 ∧
    ((calculate_dca c1Rows 100 50).1.getLast?).map
        (fun e => (e.total_shares, e.total_investment))
      = some (45 / 2, 350) ∧
    ((calculate_dca c1Rows 100 50).1.get ⟨0, by decide⟩).total_shares = 15 ∧
    ((calculate_dca c1Rows 100 50).1.get ⟨0, by decide⟩).total_investment
      = 150 ∧
    ((calculate_dca c1Rows 100 50).1.get ⟨1, by decide⟩).total_shares = 20 ∧
    ((calculate_dca c1Rows 100 50).1.get ⟨1, by decide⟩).total_investment
      = 250 := by
  simp [calculate_dca, dcaLoop, c1Rows]
  norm_num

theorem dcaLoop_length (r i : ℚ) (rows : List (PriceRow α)) (k : Nat)
    (s v : ℚ) : (dcaLoop r i rows k s v).1.length = rows.length := by
  induction rows generalizing k s v with
  | nil => rfl
  | cons row rows ih => simp [dcaLoop, ih]

theorem dcaLoop_get_date_price (r i : ℚ) (rows : List (PriceRow α)) (k : Nat)
    (s v : ℚ) (j : Nat) (h : j < rows.length)
    (h' : j < (dcaLoop r i rows k s v).1.length) :
    ((dcaLoop r i rows k s v).1.get ⟨j, h'⟩).date = (rows.get ⟨j, h⟩).date ∧
    ((dcaLoop r i rows k s v).1.get ⟨j, h'⟩).price
      = (rows.get ⟨j, h⟩).close := by
  induction rows generalizing k s v j with
  | nil => simp at h
  | cons row rows ih =>
    cases j with
    | zero => simp [dcaLoop]
    | succ j =>
      have hj : j < rows.length := by simpa using h
      have hj' : j <
          (dcaLoop r i rows (k + 1) (s + (if k = 0 then r + i else r) / row.close)
            (v + (if k = 0 then r + i else r))).1.length := by
        rw [dcaLoop_length]; exact hj
      simpa [dcaLoop] using ih (k + 1)
        (s + (if k = 0 then r + i else r) / row.close)
        (v + (if k = 0 then r + i else r)) j hj hj'

theorem dcaLoop_invested (r i : ℚ) (rows : List (PriceRow α)) (k : Nat)
    (hk : k ≠ 0) (s v : ℚ) (j : Nat)
    (h : j < (dcaLoop r i rows k s v).1.length) :
    ((dcaLoop r i rows k s v).1.get ⟨j, h⟩).total_investment
      = v + r * (j + 1) := by
  induction rows generalizing k s v j with
  | nil => simp [dcaLoop] at h
  | cons row rows ih =>
    cases j with
    | zero => simp [dcaLoop, hk]
    | succ j =>
      have hj' : j < (dcaLoop r i rows (k + 1) (s + r / row.close)
          (v + r)).1.length := by
        have h2 := h
        rw [dcaLoop_length] at h2 ⊢
        simp at h2
        omega
      have := ih (k + 1) (Nat.succ_ne_zero k) (s + r / row.close) (v + r) j hj'
      simp [dcaLoop, hk] at this ⊢
      rw [this]
      ring

theorem calculate_dca_invested (rows : List (PriceRow α)) (r i : ℚ) (j : Nat)
    (h : j < (calculate_dca rows r i).1.length) :
    ((calculate_dca rows r i).1.get ⟨j, h⟩).total_investment
      = r * (j + 1) + i := by
  cases rows with
  | nil => simp [calculate_dca, dcaLoop] at h
  | cons row rows =>
    cases j with
    | zero =>
      simp [calculate_dca, dcaLoop]
    | succ j =>
      have hj' : j < (dcaLoop r i rows 1 (0 + (r + i) / row.close)
          (0 + (r + i))).1.length := by
        have h2 := h
        simp only [calculate_dca] at h2
        rw [dcaLoop_length] at h2 ⊢
        simp [dcaLoop] at h2
        omega
      have := dcaLoop_invested r i rows 1 one_ne_zero
        (0 + (r + i) / row.close) (0 + (r + i)) j hj'
      simp [calculate_dca, dcaLoop] at this ⊢
      rw [this]
      ring

theorem dcaLoop_portfolio (r i : ℚ) (rows : List (PriceRow α)) (k : Nat)
    (s v : ℚ) :
    ∀ e ∈ (dcaLoop r i rows k s v).1,
      e.portfolio_value = e.total_shares * e.price := by
  induction rows generalizing k s v with
  | nil => simp [dcaLoop]
  | cons row rows ih =>
    intro e he
    simp only [dcaLoop, List.mem_cons] at he
    rcases he with he | he
    · subst he; rfl
    · exact ih _ _ _ e he

theorem dcaLoop_last_totals (r i : ℚ) (rows : List (PriceRow α)) (k : Nat)
    (s v : ℚ) (hne : rows ≠ []) :
    ((dcaLoop r i rows k s v).1.getLast?).map
        (fun e => (e.total_shares, e.total_investment))
      = some ((dcaLoop r i rows k s v).2.1, (dcaLoop r i rows k s v).2.2) := by
  induction rows generalizing k s v with
  | nil => exact absurd rfl hne
  | cons row rows ih =>
    cases rows with
    | nil => simp [dcaLoop]
    | cons row2 rows2 =>
      simpa [dcaLoop] using ih (k + 1)
        (s + (if k = 0 then r + i else r) / row.close)
        (v + (if k = 0 then r + i else r)) (by simp)

theorem dcaLoop_chain (r i : ℚ) (hr : 0 ≤ r)
    (rows : List (PriceRow α)) (k : Nat) (s v : ℚ)
    (hp : ∀ row ∈ rows, 0 < row.close) :
    List.Chain' (fun e1 e2 : LedgerEntry α =>
        e1.total_shares ≤ e2.total_shares ∧
        e1.total_investment ≤ e2.total_investment)
      (dcaLoop r i rows k s v).1 := by
  revert hp
  induction rows generalizing k s v with
  | nil => intro hp; simp [dcaLoop]
  | cons row rows ih =>
    intro hp
    cases rows with
    | nil => simp [dcaLoop]
    | cons row2 rows2 =>
      have hp2 : 0 < row2.close := hp row2 (by simp)
      have hrest : ∀ x ∈ row2 :: rows2, 0 < x.close :=
        fun x hx => hp x (List.mem_cons_of_mem _ hx)
      have hchain := ih (k + 1)
        (s + (if k = 0 then r + i else r) / row.close)
        (v + (if k = 0 then r + i else r)) hrest
      have hstep : 0 ≤ r / row2.close :=
        div_nonneg hr (le_of_lt hp2)
      simp only [dcaLoop] at hchain ⊢
      rw [List.chain'_cons]
      constructor
      · constructor
        · simpa using hstep
        · simp [hr]
      · exact hchain

theorem dcaLoop_depends_only (r i : ℚ) (rows1 rows2 : List (PriceRow α))
    (hd : rows1.map PriceRow.date = rows2.map PriceRow.date)
    (hc : rows1.map PriceRow.close = rows2.map PriceRow.close)
    (k : Nat) (s v : ℚ) :
    dcaLoop r i rows1 k s v = dcaLoop r i rows2 k s v := by
  revert hd hc
  induction rows1 generalizing rows2 k s v with
  | nil =>
    intro hd hc
    cases rows2 with
    | nil => rfl
    | cons _ _ => simp at hd
  | cons row rows ih =>
    intro hd hc
    cases rows2 with
    | nil => simp at hd
    | cons row2 rows2 =>
      simp only [List.map_cons, List.cons.injEq] at hd hc
      obtain ⟨hd1, hdrest⟩ := hd
      obtain ⟨hc1, hcrest⟩ := hc
      simp only [dcaLoop]
      rw [hd1, hc1, ih rows2 (k + 1)
        (s + (if k = 0 then r + i else r) / row2.close)
        (v + (if k = 0 then r + i else r)) hdrest hcrest]

/-- Two rows at the same price 10, used to separate the cumulative total from
the formula that drops the initial investment after index 0. -/
def c2Rows : List (PriceRow Nat) := [⟨0, 10, []⟩, ⟨1, 10, []⟩]

/-- C2 counterexample: for prices [10, 10] with regular contribution 100 and
initial investment 50, the ledger entry at index 1 has total investment 250,
not 100 * (1 + 1) + 0 = 200 as the claimed formula states: the initial
investment stays in the cumulative total at every later index. -/
theorem C2_counterexample :
    ¬ (((calculate_dca c2Rows 100 50).1.get ⟨1, by decide⟩).total_investment
      = 100 * (1 + 1) + if (1 : Nat) = 0 then (50 : ℚ) else 0) := by
  simp [calculate_dca, dcaLoop, c2Rows]
  norm_num

/-- C2 (amended): for every valid input (regular contribution and initial
investment non-negative, every close positive) and every index j of the
returned ledger, the entry's total investment equals
regular * (j + 1) + initial — the initial investment, contributed at
interval 0, remains part of the cumulative total at every index. -/
theorem C2_conservation_amended (rows : List (PriceRow α)) (r i : ℚ)
    (_hr : 0 ≤ r) (_hi : 0 ≤ i) (_hp : ∀ row ∈ rows, 0 < row.close)
    (j : Nat) (h : j < (calculate_dca rows r i).1.length) :
    ((calculate_dca rows r i).1.get ⟨j, h⟩).total_investment
      = r * (j + 1) + i :=
  calculate_dca_invested rows r i j h

theorem C2_conservation_amended_witness :
    ((calculate_dca c2Rows 100 50).1.get ⟨1, by decide⟩).total_investment
      = 100 * (1 + 1) + 50 :=
  C2_conservation_amended c2Rows 100 50 (by norm_num) (by norm_num)
    (by simp [c2Rows]) 1 (by decide)

/-- A one-row series whose close price is negative. -/
def c3Rows : List (PriceRow Nat) := [⟨0, -5, []⟩]

/-- C3 counterexample: the input series [(date 0, close -5)] contains a
non-positive price, yet `calculate_dca` signals nothing and returns a full
one-entry ledger — not "no ledger" as the claim states. -/
theorem C3_counterexample :
    (c3Rows.get ⟨0, by decide⟩).close ≤ 0 ∧
    (calculate_dca c3Rows 100 50).1.length = 1 := by
  constructor
  · simp [c3Rows]
  · rw [calculate_dca, dcaLoop_length]
    rfl

/-- C3 (amended): `calculate_dca` performs no price validation: even when the
series contains a non-positive close price it returns a complete ledger with
exactly one entry per input row, the division by the offending price being
applied unguarded. -/
theorem C3_no_price_validation (rows : List (PriceRow α)) (r i : ℚ)
    (_hbad : ∃ j, ∃ h : j < rows.length, (rows.get ⟨j, h⟩).close ≤ 0) :
    (calculate_dca rows r i).1.length = rows.length := by
  rw [calculate_dca, dcaLoop_length]

theorem C3_no_price_validation_witness :
    (calculate_dca c3Rows 100 50).1.length = c3Rows.length :=
  C3_no_price_validation c3Rows 100 50
    ⟨0, by decide, by simp [c3Rows]⟩

/-- A one-row series with a positive close, for exercising negative
contribution parameters. -/
def c4Rows : List (PriceRow Nat) := [⟨0, 10, []⟩]

/-- C4 counterexample: called with regular contribution -100 (a negative
parameter), `calculate_dca` raises nothing and returns a one-entry ledger
recording total investment -100 — no validation happens at the entry
point. -/
theorem C4_counterexample :
    (-100 : ℚ) < 0 ∧
    (calculate_dca c4Rows (-100) 0).1.length = 1 ∧
    ((calculate_dca c4Rows (-100) 0).1.get ⟨0, by decide⟩).total_investment
      = -100 := by
  refine ⟨by norm_num, ?_, ?_⟩
  · rw [calculate_dca, dcaLoop_length]
    rfl
  · simp [calculate_dca, dcaLoop, c4Rows]

/-- C4 (amended): `calculate_dca` performs no parameter validation: with a
negative regular contribution or a negative initial investment it still
returns a full ledger, one entry per row, whose totals follow the same
accumulation formula (so they can be negative). -/
theorem C4_no_parameter_validation (rows : List (PriceRow α)) (r i : ℚ)
    (_hneg : r < 0 ∨ i < 0) (j : Nat)
    (h : j < (calculate_dca rows r i).1.length) :
    (calculate_dca rows r i).1.length = rows.length ∧
    ((calculate_dca rows r i).1.get ⟨j, h⟩).total_investment
      = r * (j + 1) + i :=
  ⟨by rw [calculate_dca, dcaLoop_length], calculate_dca_invested rows r i j h⟩

theorem C4_no_parameter_validation_witness :
    (calculate_dca c4Rows (-100) 0).1.length = c4Rows.length ∧
    ((calculate_dca c4Rows (-100) 0).1.get ⟨0, by decide⟩).total_investment
      = -100 * (0 + 1) + 0 :=
  C4_no_parameter_validation c4Rows (-100) 0 (Or.inl (by norm_num)) 0
    (by decide)

/-- C5: for every valid input (non-negative contribution parameters, positive
closes) the total shares and total investment recorded in the ledger are
non-decreasing from each entry to the next. -/
theorem C5_monotonicity (rows : List (PriceRow α)) (r i : ℚ)
    (hr : 0 ≤ r) (_hi : 0 ≤ i) (hp : ∀ row ∈ rows, 0 < row.close)
    (j : Nat) (h : j + 1 < (calculate_dca rows r i).1.length) :
    ((calculate_dca rows r i).1.get ⟨j, Nat.lt_of_succ_lt h⟩).total_shares ≤
      ((calculate_dca rows r i).1.get ⟨j + 1, h⟩).total_shares ∧
    ((calculate_dca rows r i).1.get
        ⟨j, Nat.lt_of_succ_lt h⟩).total_investment ≤
      ((calculate_dca rows r i).1.get ⟨j + 1, h⟩).total_investment := by
  have hchain := dcaLoop_chain r i hr rows 0 0 0 hp
  rw [List.chain'_iff_get] at hchain
  have h2 : j < (dcaLoop r i rows 0 0 0).1.length - 1 := by
    simp only [calculate_dca] at h
    omega
  exact hchain j h2

theorem C5_monotonicity_witness :
    ((calculate_dca c1Rows 100 50).1.get ⟨0, by decide⟩).total_shares ≤
      ((calculate_dca c1Rows 100 50).1.get ⟨1, by decide⟩).total_shares ∧
    ((calculate_dca c1Rows 100 50).1.get ⟨0, by decide⟩).total_investment ≤
      ((calculate_dca c1Rows 100 50).1.get ⟨1, by decide⟩).total_investment :=
  C5_monotonicity c1Rows 100 50 (by norm_num) (by norm_num)
    (by simp [c1Rows]) 0 (by decide)

/-- C6: the returned ledger has exactly one entry per input row in input order
(matching dates and prices position by position); the empty series yields the
empty ledger with both totals zero, and `calculate_dca` is a total function,
so no error is signalled. -/
theorem C6_length_and_order (rows : List (PriceRow α)) (r i : ℚ) :
    (calculate_dca rows r i).1.length = rows.length ∧
    (∀ j (h : j < rows.length)
        (h' : j < (calculate_dca rows r i).1.length),
      ((calculate_dca rows r i).1.get ⟨j, h'⟩).date
        = (rows.get ⟨j, h⟩).date ∧
      ((calculate_dca rows r i).1.get ⟨j, h'⟩).price
        = (rows.get ⟨j, h⟩).close) ∧
    (rows = [] → calculate_dca rows r i = ([], 0, 0)) := by
  refine ⟨by rw [calculate_dca, dcaLoop_length], ?_, ?_⟩
  · intro j h h'
    exact dcaLoop_get_date_price r i rows 0 0 0 j h h'
  · rintro rfl
    rfl

theorem C6_length_and_order_witness :
    ((calculate_dca c1Rows 100 50).1.get ⟨0, by decide⟩).date
      = (c1Rows.get ⟨0, by decide⟩).date ∧
    ((calculate_dca c1Rows 100 50).1.get ⟨0, by decide⟩).price
      = (c1Rows.get ⟨0, by decide⟩).close :=
  (C6_length_and_order c1Rows 100 50).2.1 0 (by decide) (by decide)

/-- C7: every ledger entry's portfolio value equals its total shares times its
price, exactly (the entry is built with that product). -/
theorem C7_portfolio_value_identity (rows : List (PriceRow α)) (r i : ℚ)
    (_hr : 0 ≤ r) (_hi : 0 ≤ i) (_hp : ∀ row ∈ rows, 0 < row.close)
    (j : Nat) (h : j < (calculate_dca rows r i).1.length) :
    ((calculate_dca rows r i).1.get ⟨j, h⟩).portfolio_value
      = ((calculate_dca rows r i).1.get ⟨j, h⟩).total_shares *
        ((calculate_dca rows r i).1.get ⟨j, h⟩).price :=
  dcaLoop_portfolio r i rows 0 0 0 _ (List.get_mem _ j h)

theorem C7_portfolio_value_identity_witness :
    ((calculate_dca c1Rows 100 50).1.get ⟨0, by decide⟩).portfolio_value
      = ((calculate_dca c1Rows 100 50).1.get ⟨0, by decide⟩).total_shares *
        ((calculate_dca c1Rows 100 50).1.get ⟨0, by decide⟩).price :=
  C7_portfolio_value_identity c1Rows 100 50 (by norm_num) (by norm_num)
    (by simp [c1Rows]) 0 (by decide)

/-- C8: the totals returned next to the ledger equal the last ledger entry's
total shares and total investment for a non-empty input, and are both zero for
the empty input. -/
theorem C8_result_totals (rows : List (PriceRow α)) (r i : ℚ)
    (_hr : 0 ≤ r) (_hi : 0 ≤ i) (_hp : ∀ row ∈ rows, 0 < row.close) :
    (rows = [] → (calculate_dca rows r i).2.1 = 0 ∧
      (calculate_dca rows r i).2.2 = 0) ∧
    (rows ≠ [] →
      ((calculate_dca rows r i).1.getLast?).map
          (fun e => (e.total_shares, e.total_investment))
        = some ((calculate_dca rows r i).2.1,
            (calculate_dca rows r i).2.2)) := by
  constructor
  · rintro rfl
    exact ⟨rfl, rfl⟩
  · intro hne
    exact dcaLoop_last_totals r i rows 0 0 0 hne

theorem C8_result_totals_witness :
    ((calculate_dca c1Rows 100 50).1.getLast?).map
        (fun e => (e.total_shares, e.total_investment))
      = some ((calculate_dca c1Rows 100 50).2.1,
          (calculate_dca c1Rows 100 50).2.2) :=
  (C8_result_totals c1Rows 100 50 (by norm_num) (by norm_num)
    (by simp [c1Rows])).2 (by simp [c1Rows])

/-- C9: evaluating the code at the input where both contribution parameters
are zero over the one-row series at price 10: the total invested is 0, and the
gain/loss percentage of `main` is still computed — the division by the zero
total is performed with no guard and yields a numeric value (zero under the
rational convention for division by zero), not a signalled failure. -/
theorem C9_unguarded_net_gain_loss_pct :
    (calculate_dca c4Rows 0 0).2.2 = 0 ∧
    net_gain_loss_pct (calculate_dca c4Rows 0 0).1
      (calculate_dca c4Rows 0 0).2.2 = 0 := by
  constructor
  · simp [calculate_dca, dcaLoop, c4Rows]
  · simp [net_gain_loss_pct, calculate_dca, dcaLoop, c4Rows]

/-- C10: the result of `calculate_dca` depends only on the sequence of dates,
the sequence of Close prices and the two contribution parameters: two inputs
agreeing on those produce identical outputs, whatever their other columns
hold. -/
theorem C10_depends_only_on_dates_closes (rows1 rows2 : List (PriceRow α))
    (r i : ℚ)
    (hd : rows1.map PriceRow.date = rows2.map PriceRow.date)
    (hc : rows1.map PriceRow.close = rows2.map PriceRow.close) :
    calculate_dca rows1 r i = calculate_dca rows2 r i :=
  dcaLoop_depends_only r i rows1 rows2 hd hc 0 0 0

/-- A one-row series carrying an extra Open column. -/
def c10RowsA : List (PriceRow Nat) := [⟨0, 10, [("Open", 9)]⟩]

/-- The same date and close as `c10RowsA` but different extra data. -/
def c10RowsB : List (PriceRow Nat) := [⟨0, 10, [("Volume", 1000)]⟩]

theorem C10_depends_only_on_dates_closes_witness :
    calculate_dca c10RowsA 100 50 = calculate_dca c10RowsB 100 50 :=
  C10_depends_only_on_dates_closes c10RowsA c10RowsB 100 50 rfl rfl
